import Mathlib

/-!
Verification development for the mccode-antlr repository.

Shallow embedding of the parts of the code base that the checked
properties are about:

* the expression IR of `mccode/common/expression.py`
  (data-type promotion, constant folding, division-by-zero handling);
* the particle-flow-edge builder of `src/mccode_antlr/instr/flow.py`;
* the component-insertion edit of `Instr` (modelled from the spec,
  it is absent from the provided sources) together with the flow rebuild;
* the `SEARCH SHELL` visitor of `src/mccode_antlr/instr/visitor.py`;
* the dependency-flag keyword replacement of
  `src/mccode_antlr/instr/instr.py` with the Python `re.sub`
  replacement-template semantics it relies on;
* the two-level component cache and `Reader.contents` of
  `src/mccode_antlr/reader/reader.py`.

Python machine integers do not overflow and the numeric payloads the
properties touch are integers and exact decimal literals, so numeric
payloads are embedded as rationals.
-/

namespace McCodeAntlr

/-! ## Expression IR (mccode/common/expression.py) -/

/-- `DataType` enum of `expression.py`. -/
inductive DataType
  | undefined
  | float
  | int
  | str
deriving DecidableEq, Repr

/-- `DataType.__add__` of `expression.py` (also aliased as `__sub__`,
`__mul__` and `__truediv__` there): the binary data-type combination rule. -/
def DataType.add : DataType → DataType → DataType
  | .undefined, other => other
  | a, .undefined => a
  | .float, .float => .float
  | .int, .int => .int
  | .str, .str => .str
  | .float, .int => .int
  | .int, .float => .int
  | _, _ => .str

/-- `DataType.is_str`. -/
def DataType.isStr : DataType → Bool
  | .str => true
  | _ => false

/-- `ObjectType` enum of `expression.py`. -/
inductive ObjectType
  | value
  | initializer_list
  | identifier
  | function
  | parameter
deriving DecidableEq, Repr

/-- `ShapeType` enum of `expression.py`. -/
inductive ShapeType
  | scalar
  | vector
deriving DecidableEq, Repr

/-- Payload held by a `Value`.  The embedded payloads are numbers
(Python `int`/`float`, embedded as rationals) and strings (identifier
names or string literals); list payloads and `None` payloads play no
role in the checked properties. -/
inductive Payload
  | num (q : ℚ)
  | strVal (s : String)
deriving DecidableEq, Repr

/-- Does a payload compare equal to a Python `int` `n` (Python `==`)?
A string never equals a number in Python. -/
def Payload.eqInt (p : Payload) (n : Int) : Bool :=
  match p with
  | .num q => q = (n : ℚ)
  | .strVal _ => false

/-- `Value` of `expression.py`: payload plus the three type tags. -/
structure Value where
  value : Payload
  data_type : DataType
  object_type : ObjectType
  shape_type : ShapeType
deriving DecidableEq, Repr

/-- `Value.__init__` with `object_type=None` and `shape_type=None`:
the object type defaults to `identifier` when the payload is a string and
the data type is not `str`, else to `value`; the shape defaults to
`scalar` for the embedded (non-list) payloads. -/
def Value.make (v : Payload) (dt : Option DataType) : Value :=
  let d := dt.getD .undefined
  let o : ObjectType :=
    match v with
    | .strVal _ => if d ≠ .str then .identifier else .value
    | .num _ => .value
  ⟨v, d, o, .scalar⟩

/-- `Value.is_id`: string payload whose data type is not `str`. -/
def Value.isId (v : Value) : Bool :=
  v.data_type != .str && (match v.value with | .strVal _ => true | .num _ => false)

/-- `Value.is_zero`: not an identifier and payload `== 0`. -/
def Value.isZero (v : Value) : Bool :=
  !v.isId && v.value.eqInt 0

/-- `Value.is_value(n)` for a plain Python `int` argument `n`:
`n` has no `is_value` attribute, so the method returns `self.value == n`. -/
def Value.isValueInt (v : Value) (n : Int) : Bool :=
  v.value.eqInt n

/-- `Value.best`: strings keep `str`; a number that is an integer gets
data type `int`, otherwise `float` (the payload itself is unchanged). -/
def Value.best (p : Payload) : Value :=
  match p with
  | .strVal s => Value.make (.strVal s) (some .str)
  | .num q => if q.den = 1 then Value.make (.num q) (some .int)
              else Value.make (.num q) (some .float)

/-- Expression tree: `Value`, `UnaryOp(op, value)` or
`BinaryOp(op, left, right)` of `expression.py` (`Expr` there is a
transparent wrapper around one of the three). -/
inductive ExprT
  | val (v : Value)
  | unary (op : String) (arg : ExprT)
  | binary (op : String) (left right : ExprT)
deriving DecidableEq, Repr

/-- The `data_type` attribute: a `Value` stores it, `UnaryOp.__init__`
copies the operand's, `BinaryOp.__init__` stores `left.data_type +
right.data_type`. -/
def ExprT.dataType : ExprT → DataType
  | .val v => v.data_type
  | .unary _ a => a.dataType
  | .binary _ l r => DataType.add l.dataType r.dataType

/-- `is_op`: true for `UnaryOp` and `BinaryOp`, false for `Value`. -/
def ExprT.isOp : ExprT → Bool
  | .val _ => false
  | _ => true

/-- `is_zero`: `False` on the operator classes, `Value.is_zero` on values. -/
def ExprT.isZero : ExprT → Bool
  | .val v => v.isZero
  | _ => false

/-- `is_id`: `False` on the operator classes, `Value.is_id` on values. -/
def ExprT.isId : ExprT → Bool
  | .val v => v.isId
  | _ => false

/-- `is_value(n)` for a plain `int` argument: operator classes compare
with `__eq__` against the integer, which is `False`; values compare the
payload. -/
def ExprT.isValueInt (e : ExprT) (n : Int) : Bool :=
  match e with
  | .val v => v.isValueInt n
  | _ => false

/-- `Expr.is_constant`: the held node is a `Value` that is not an
identifier. -/
def ExprT.isConstantValue : ExprT → Bool
  | .val v => !v.isId
  | _ => false

/-- Unary negation: `Value.__neg__` wraps identifiers and strings in
`UnaryOp('-')` and negates numeric payloads; `UnaryOp.__neg__` cancels a
double minus; `BinaryOp.__neg__` always wraps. -/
def ExprT.neg : ExprT → ExprT
  | .val v =>
    if v.isId ∨ v.data_type.isStr then .unary "-" (.val v)
    else
      match v.value with
      | .num q => .val (Value.make (.num (-q)) (some v.data_type))
      | .strVal _ => .unary "-" (.val v)  -- unreachable: caught by is_id / is_str
  | .unary op a => if op = "-" then a else .unary "-" (.unary op a)
  | .binary op l r => .unary "-" (.binary op l r)

/-- `abs`: `Value.__abs__` wraps identifiers and strings in
`UnaryOp('abs')` and takes the payload's absolute value otherwise;
`UnaryOp.__abs__` collapses `abs(abs(x))`; `BinaryOp.__abs__` wraps. -/
def ExprT.absOp : ExprT → ExprT
  | .val v =>
    if v.isId ∨ v.data_type.isStr then .unary "abs" (.val v)
    else
      match v.value with
      | .num q => .val (Value.make (.num |q|) (some v.data_type))
      | .strVal _ => .unary "abs" (.val v)  -- unreachable: caught by is_id / is_str
  | .unary op a => if op = "abs" then .unary op a else .unary "abs" (.unary op a)
  | .binary op l r => .unary "abs" (.binary op l r)

mutual

/-- `Value.__add__`.  The branch for an identifier plus a negative
literal (`self - (-other.value)`) is unfolded through `Value.__sub__`:
with `self.is_id` true that call coerces the raw number through
`Value.best` and lands in the `BinaryOp('-')` branch. -/
def valueAdd (v : Value) (o : ExprT) : ExprT :=
  if v.isZero then o
  else if o.isZero then .val v
  else
    match o with
    | .unary op w =>
      if op = "-" then valueSub v w else .binary "+" (.val v) (.unary op w)
    | .binary op l r => .binary "+" (.val v) (.binary op l r)
    | .val w =>
      if v.isId && (match w.value with | .num q => decide (q < 0) | .strVal _ => false) then
        match w.value with
        | .num q => .binary "-" (.val v) (.val (Value.best (.num (-q))))
        | .strVal _ => .binary "+" (.val v) (.val w)  -- unreachable
      else if v.isId ∨ w.isId then .binary "+" (.val v) (.val w)
      else
        let pdt := DataType.add v.data_type w.data_type
        if pdt.isStr then .binary "+" (.val v) (.val w)
        else
          match v.value, w.value with
          | .num a, .num b => .val (Value.make (.num (a + b)) (some pdt))
          | _, _ => .binary "+" (.val v) (.val w)  -- unreachable: non-ids with non-str pdt are numeric

/-- `Value.__sub__`, with the identifier-minus-negative-literal branch
(`self + (-other.value)`) unfolded through `Value.__add__` as above. -/
def valueSub (v : Value) (o : ExprT) : ExprT :=
  if v.isZero then o.neg
  else if o.isZero then .val v
  else
    match o with
    | .unary op w =>
      if op = "-" then valueAdd v w else .binary "-" (.val v) (.unary op w)
    | .binary op l r => .binary "-" (.val v) (.binary op l r)
    | .val w =>
      if v.isId && (match w.value with | .num q => decide (q < 0) | .strVal _ => false) then
        match w.value with
        | .num q => .binary "+" (.val v) (.val (Value.best (.num (-q))))
        | .strVal _ => .binary "-" (.val v) (.val w)  -- unreachable
      else if v.isId ∨ w.isId then .binary "-" (.val v) (.val w)
      else
        let pdt := DataType.add v.data_type w.data_type
        if pdt.isStr then .binary "-" (.val v) (.val w)
        else
          match v.value, w.value with
          | .num a, .num b => .val (Value.make (.num (a - b)) (some pdt))
          | _, _ => .binary "-" (.val v) (.val w)  -- unreachable

end

/-- `Value.__mul__`. -/
def valueMul (v : Value) (o : ExprT) : ExprT :=
  let pdt := DataType.add v.data_type o.dataType
  if v.isZero ∨ o.isZero then
    .val (Value.make (.num 0) (some (if pdt.isStr then .int else pdt)))
  else if v.isValueInt 1 then o
  else if v.isValueInt (-1) then o.neg
  else if o.isOp ∨ v.isId ∨ o.isId then .binary "*" (.val v) o
  else if pdt.isStr then .binary "*" (.val v) o
  else
    match o with
    | .val w =>
      match v.value, w.value with
      | .num a, .num b => .val (Value.make (.num (a * b)) (some pdt))
      | _, _ => .binary "*" (.val v) o  -- unreachable: non-ids with non-str pdt are numeric
    | _ => .binary "*" (.val v) o  -- unreachable: o.is_op was checked above

/-- `Value.__truediv__`.  A zero numerator short-circuits before the
divisor is inspected; a zero divisor raises `Division by zero!`. -/
def valueTruediv (v : Value) (o : ExprT) : Except String ExprT :=
  let pdt := DataType.add v.data_type o.dataType
  if v.isZero then
    .ok (.val (Value.make (.num 0) (some (if pdt.isStr then .int else pdt))))
  else if o.isValueInt 1 then .ok (.val v)
  else if o.isValueInt (-1) then .ok (ExprT.neg (.val v))
  else if o.isZero then .error "Division by zero!"
  else if o.isOp ∨ v.isId ∨ o.isId then .ok (.binary "/" (.val v) o)
  else if pdt.isStr then .ok (.binary "/" (.val v) o)
  else
    match o with
    | .val w =>
      match v.value, w.value with
      | .num a, .num b => .ok (.val (Value.make (.num (a / b)) (some pdt)))
      | _, _ => .ok (.binary "/" (.val v) o)  -- unreachable
    | _ => .ok (.binary "/" (.val v) o)  -- unreachable

/-- `Value.__pow__`. -/
def valuePow (v : Value) (p : ExprT) : ExprT :=
  if v.isZero ∨ v.isValueInt 1 then .val v
  else if p.isZero then .val (Value.make (.num 1) (some v.data_type))
  else .binary "__pow__" (.val v) p

/-- `__add__` dispatch over the node's class (`UnaryOp.__add__` and
`BinaryOp.__add__` only fold a zero addend). -/
def ExprT.add : ExprT → ExprT → ExprT
  | .val v, o => valueAdd v o
  | .unary op a, o => if o.isZero then .unary op a else .binary "+" (.unary op a) o
  | .binary op l r, o => if o.isZero then .binary op l r else .binary "+" (.binary op l r) o

/-- `__sub__` dispatch. -/
def ExprT.sub : ExprT → ExprT → ExprT
  | .val v, o => valueSub v o
  | .unary op a, o => if o.isZero then .unary op a else .binary "-" (.unary op a) o
  | .binary op l r, o => if o.isZero then .binary op l r else .binary "-" (.binary op l r) o

/-- `UnaryOp.__mul__` / `BinaryOp.__mul__` common body. -/
def opMul (s o : ExprT) : ExprT :=
  if o.isZero then o
  else if o.isValueInt 1 then s
  else if o.isValueInt (-1) then s.neg
  else .binary "*" s o

/-- `__mul__` dispatch. -/
def ExprT.mul : ExprT → ExprT → ExprT
  | .val v, o => valueMul v o
  | .unary op a, o => opMul (.unary op a) o
  | .binary op l r, o => opMul (.binary op l r) o

/-- `UnaryOp.__truediv__` / `BinaryOp.__truediv__` common body:
these check the divisor for zero first and raise `Division by zero`. -/
def opDiv (s o : ExprT) : Except String ExprT :=
  if o.isZero then .error "Division by zero"
  else if o.isValueInt 1 then .ok s
  else if o.isValueInt (-1) then .ok s.neg
  else .ok (.binary "/" s o)

/-- `__truediv__` dispatch. -/
def ExprT.div : ExprT → ExprT → Except String ExprT
  | .val v, o => valueTruediv v o
  | .unary op a, o => opDiv (.unary op a) o
  | .binary op l r, o => opDiv (.binary op l r) o

/-- `__pow__` dispatch (only `Value` defines it). -/
def ExprT.pow : ExprT → ExprT → Option ExprT
  | .val v, p => some (valuePow v p)
  | _, _ => none

/-- Convenience literal: `Value(n)` with integer data type
(as produced by `Value.best` on an integer). -/
def intLit (n : Int) : ExprT := .val (Value.best (.num (n : ℚ)))

/-- Convenience identifier: a `Value` holding a bare name with
undefined data type, as the expression visitor produces for a free
identifier. -/
def idLit (s : String) : ExprT := .val (Value.make (.strVal s) none)

/-- Did the operation raise (`RuntimeError` in the source)? -/
def raises (r : Except String ExprT) : Bool :=
  match r with
  | .error _ => true
  | .ok _ => false

/-- The combination rule of the amended claim, stated as its own function:
symmetric, `undefined` is the identity, equal types are preserved, the
`int`/`float` mix yields `int` (legacy rule), and any mix involving `str`
yields `str`. -/
def dtCombineSpec : DataType → DataType → DataType
  | .undefined, b => b
  | a, .undefined => a
  | a, b => if a = b then a else if a = .str ∨ b = .str then .str else .int


/-! ## Particle flow graph (src/mccode_antlr/instr/flow.py)

The builder `_build_flow_edge_records` reads, for each component
instance, only its `name`, `group`, `when` and `jump` attributes, so the
embedded `Instance` carries exactly those fields. -/

/-- `Jump`.  Modelled from the spec: the `Jump` dataclass
(`instr/jump.py`) is not among the provided sources; §3 of the spec gives
its fields `{target, relative_target, iterate, condition,
absolute_target}` with `absolute_target = -1` meaning unresolved. -/
structure Jump where
  target : String
  relative_target : Int
  iterate : Bool
  condition : ExprT
  absolute_target : Int
deriving DecidableEq, Repr

/-- The slice of `Instance` (instr/instance.py) read by the flow builder. -/
structure Instance where
  name : String
  group : Option String
  whenExpr : Option ExprT
  jump : List Jump
deriving DecidableEq, Repr

/-- `GroupEdgeKind` of flow.py. -/
inductive GroupEdgeKind
  | ENTRY
  | TRY_NEXT
  | SCATTER_EXIT
  | PASS_THROUGH
deriving DecidableEq, Repr

/-- The `FlowEdge` payload hierarchy of flow.py
(`SequentialEdge`, `GroupEdge`, `JumpEdge`, `WeightedRandomEdge`). -/
inductive FlowEdge
  | sequential (whenExpr : Option ExprT)
  | group (group_name : String) (kind : GroupEdgeKind)
  | jump (condition : ExprT) (iterate : Bool) (absolute_target : Int)
  | weighted_random (weight : ℚ) (condition : Option ExprT)
deriving DecidableEq, Repr

/-- `FlowEdgeRecord` of flow.py: the serialisable `(src, dst, edge)`
triplet. -/
structure FlowEdgeRecord where
  src : String
  dst : String
  edge : FlowEdge
deriving DecidableEq, Repr

/-- One step of the adjacent-pair loop of `_build_flow_edge_records`:
with the same non-None group on both sides emit `Group(TRY_NEXT)`; when
the source has a group and it differs from `dst.group or ''` emit nothing
(group-exit edges are handled by the group loop); otherwise emit
`Sequential(when=dst.when)`. -/
def pairEdge (src dst : Instance) : Option FlowEdgeRecord :=
  match src.group with
  | none => some ⟨src.name, dst.name, .sequential dst.whenExpr⟩
  | some sg =>
    if dst.group = some sg then some ⟨src.name, dst.name, .group sg .TRY_NEXT⟩
    else if sg ≠ dst.group.getD "" then none
    else some ⟨src.name, dst.name, .sequential dst.whenExpr⟩

/-- The index pairs `(components[idx], components[idx+1])` for
`idx in range(n - 1)`. -/
def adjPairs (l : List Instance) : List (Instance × Instance) :=
  l.zip l.tail

/-- The sequential / within-group part of the record list. -/
def seqRecords (cs : List Instance) : List FlowEdgeRecord :=
  (adjPairs cs).filterMap fun p => pairEdge p.1 p.2

/-- The ordered `[(idx, inst), ...]` list that the
`groups.setdefault(inst.group, []).append((idx, inst))` loop accumulates
for one group name, with `i` the index of the first component of the
remaining list. -/
def enumMembersFrom (gname : String) : Nat → List Instance → List (Nat × Instance)
  | _, [] => []
  | i, c :: t =>
    if c.group = some gname then (i, c) :: enumMembersFrom gname (i + 1) t
    else enumMembersFrom gname (i + 1) t

/-- All `(index, instance)` members of the named group, in source order. -/
def groupMembers (cs : List Instance) (gname : String) : List (Nat × Instance) :=
  enumMembersFrom gname 0 cs

/-- First-occurrence deduplication: the key order of the Python ordered
dict built by `setdefault`. -/
def firstOccurAux (seen : List String) : List String → List String
  | [] => []
  | a :: t => if a ∈ seen then firstOccurAux seen t
              else a :: firstOccurAux (a :: seen) t

/-- The group names in first-appearance order (the iteration order of
`groups.items()`). -/
def groupKeys (cs : List Instance) : List String :=
  firstOccurAux [] (cs.filterMap Instance.group)

/-- The `while exit_idx < n and components[exit_idx].group == group_name`
advance past trailing co-members; `fuel` bounds the loop (`cs.length`
iterations always suffice). -/
def advanceExit (cs : List Instance) (gname : String) : Nat → Nat → Nat
  | 0, i => i
  | fuel + 1, i =>
    match cs[i]? with
    | some c => if c.group = some gname then advanceExit cs gname fuel (i + 1) else i
    | none => i

/-- The group-exit loop body for one group name: when an exit component
exists, a `SCATTER_EXIT` edge from every member to it followed by one
`PASS_THROUGH` edge from the last member; no records when the group runs
to the end of the instrument (`exit_idx = n`, so the index lookup fails). -/
def groupExitRecords (cs : List Instance) (gname : String) : List FlowEdgeRecord :=
  let members := groupMembers cs gname
  match members.getLast? with
  | none => []
  | some (last_idx, last_inst) =>
    let exit_idx := advanceExit cs gname cs.length (last_idx + 1)
    match cs[exit_idx]? with
    | none => []
    | some exitInst =>
      (members.map fun m => ⟨m.2.name, exitInst.name, .group gname .SCATTER_EXIT⟩)
        ++ [⟨last_inst.name, exitInst.name, .group gname .PASS_THROUGH⟩]

/-- `enumerate(components)`. -/
def groupIndexList (cs : List Instance) : List (Nat × Instance) :=
  cs.enum

/-- `{inst.name: idx for idx, inst in enumerate(components)}` followed by
`.get(target, -1)`: a dict comprehension lets the later index win for a
duplicated name, so the lookup yields the last matching index. -/
def nameToIdx (cs : List Instance) (nm : String) : Int :=
  match (groupIndexList cs).reverse.find? (fun p => p.2.name = nm) with
  | some p => (p.1 : Int)
  | none => -1

/-- The jump loop of `_build_flow_edge_records`: resolve the target by
name when `absolute_target` is unset (`-1`, or any negative value) and
emit a `JumpEdge` when the resolved index is in range. -/
def jumpRecords (cs : List Instance) : List FlowEdgeRecord :=
  cs.flatMap fun inst =>
    inst.jump.filterMap fun jmp =>
      let t : Int :=
        if jmp.absolute_target < (0 : Int) then nameToIdx cs jmp.target
        else jmp.absolute_target
      if (0 : Int) ≤ t ∧ t < (cs.length : Int) then
        match cs[t.toNat]? with
        | some target => some ⟨inst.name, target.name, .jump jmp.condition jmp.iterate t⟩
        | none => none
      else none

/-- `_build_flow_edge_records`: sequential and within-group edges, then
group-exit edges, then jump edges. -/
def buildFlowEdgeRecords (cs : List Instance) : List FlowEdgeRecord :=
  if cs.isEmpty then []
  else seqRecords cs ++ (groupKeys cs).flatMap (groupExitRecords cs) ++ jumpRecords cs

/-- Is the record a `Group(TRY_NEXT)` edge of the named group? -/
def isTryNextG (g : String) (r : FlowEdgeRecord) : Bool :=
  match r.edge with
  | .group gn .TRY_NEXT => gn == g
  | _ => false

/-- Is the record a `Group(SCATTER_EXIT)` edge of the named group? -/
def isScatterExitG (g : String) (r : FlowEdgeRecord) : Bool :=
  match r.edge with
  | .group gn .SCATTER_EXIT => gn == g
  | _ => false

/-- Is the record a `Group(PASS_THROUGH)` edge of the named group? -/
def isPassThroughG (g : String) (r : FlowEdgeRecord) : Bool :=
  match r.edge with
  | .group gn .PASS_THROUGH => gn == g
  | _ => false

/-- Is the record a `Sequential` edge? -/
def isSequentialEdge (r : FlowEdgeRecord) : Bool :=
  match r.edge with
  | .sequential _ => true
  | _ => false

/-- Is the record a `Jump` edge? -/
def isJumpEdge (r : FlowEdgeRecord) : Bool :=
  match r.edge with
  | .jump _ _ _ => true
  | _ => false

/-! ## Component insertion (Instr.insert_component)

`Instr.insert_component` is not among the provided sources (only its
tests are), so the edit itself is modelled from the spec; the flow
rebuild that follows it is `_build_flow_edge_records` above. -/

/-- Set a jump's `absolute_target` back to the unresolved marker `-1`. -/
def invalidateJump (j : Jump) : Jump :=
  { j with absolute_target := -1 }

/-- Modelled from the spec: the jump-invalidation part of
`Instr.insert_component` — "invalidate all `Jump.absolute_target` to `-1`
so the next build resolves them by name". -/
def invalidateJumpTargets (inst : Instance) : Instance :=
  { inst with jump := inst.jump.map invalidateJump }

/-- Modelled from the spec: `Instr.insert_component(name, type,
before=|after=)` places the new instance at the resolved index `pos` of
the component tuple and invalidates every jump's `absolute_target`; the
flow-edge records are then rebuilt from the new component list. -/
def insertComponent (cs : List Instance) (pos : Nat) (newInst : Instance) : List Instance :=
  (cs.take pos ++ newInst :: cs.drop pos).map invalidateJumpTargets

/-! ## Python string primitives

Executable (kernel-reducible) character-list implementations of the
Python string operations the embedded code uses. -/

/-- Is `pat` a prefix of `s`? -/
def startsWithChars : List Char → List Char → Bool
  | [], _ => true
  | _ :: _, [] => false
  | p :: ps, c :: cs => p = c && startsWithChars ps cs

/-- Python `pat in s` (substring containment). -/
def containsSubChars (pat : List Char) : List Char → Bool
  | [] => startsWithChars pat []
  | c :: t => startsWithChars pat (c :: t) || containsSubChars pat t

/-- Python `sub in s`. -/
def containsSub (s sub : String) : Bool :=
  containsSubChars sub.data s.data

/-- Python `str.replace(pat, repl)` for a non-empty `pat` (the fuel is the
remaining source length, which always suffices). -/
def replaceChars (pat repl : List Char) : Nat → List Char → List Char
  | 0, s => s
  | fuel + 1, s =>
    match s with
    | [] => []
    | c :: t =>
      if startsWithChars pat (c :: t) && !pat.isEmpty then
        repl ++ replaceChars pat repl fuel ((c :: t).drop pat.length)
      else c :: replaceChars pat repl fuel t

/-- Python `s.replace(pat, repl)`. -/
def strReplace (s pat repl : String) : String :=
  String.mk (replaceChars pat.data repl.data s.data.length s.data)

/-- Split `s` before/after the first occurrence of `pat`, dropping it. -/
def breakOnSub (pat : List Char) : List Char → Option (List Char × List Char)
  | [] => if pat.isEmpty then some ([], []) else none
  | c :: t =>
    if startsWithChars pat (c :: t) && !pat.isEmpty then
      some ([], (c :: t).drop pat.length)
    else
      match breakOnSub pat t with
      | some (pre, post) => some (c :: pre, post)
      | none => none

/-- Python `str.split(sep)` for a non-empty separator: every field is
kept, empty fields included. -/
def splitOnCharsAux (pat : List Char) : Nat → List Char → List (List Char)
  | 0, s => [s]
  | fuel + 1, s =>
    match breakOnSub pat s with
    | some (pre, post) => pre :: splitOnCharsAux pat fuel post
    | none => [s]

/-- Python `s.split(sep)`. -/
def pySplitOn (s sep : String) : List String :=
  (splitOnCharsAux sep.data s.data.length s.data).map String.mk

/-- Python `str.lower()`. -/
def strToLower (s : String) : String :=
  String.mk (s.data.map Char.toLower)

/-- Python `str.endswith(pat)`. -/
def strEndsWith (s pat : String) : Bool :=
  startsWithChars pat.data.reverse s.data.reverse

/-- Python `s[:-n]`. -/
def strDropRight (s : String) (n : Nat) : String :=
  String.mk (s.data.take (s.data.length - n))

/-- Python `str.split()` with no argument: split on whitespace runs,
dropping empty fields (`acc` holds the reversed current word). -/
def pySplitWsAux : List Char → List Char → List String
  | acc, [] => if acc.isEmpty then [] else [String.mk acc.reverse]
  | acc, c :: rest =>
    if c.isWhitespace then
      if acc.isEmpty then pySplitWsAux [] rest
      else String.mk acc.reverse :: pySplitWsAux [] rest
    else pySplitWsAux (c :: acc) rest

/-- Python `s.split()`. -/
def pySplitWhitespace (s : String) : List String :=
  pySplitWsAux [] s.data


/-! ## SEARCH SHELL (src/mccode_antlr/instr/visitor.py) -/

/-- The observable effects of `visitSearchShell`, as data: the argument
list and `shell` flag of the `subprocess.run` call, and the specs passed
to `Reader.handle_search_keyword`. -/
structure SearchShellCall where
  args : List String
  shell : Bool
  specs : List String
deriving DecidableEq, Repr

/-- `visitSearchShell`: `args = str(ctx.StringLiteral()).split()` — the
`StringLiteral` token text retains its surrounding quotes —
`run(args, shell=True, capture_output=True, check=True)`, and then
`handle_search_keyword(specs)` for every field of
`res.stdout.decode().split('\n')`, empty fields included. -/
def visitSearchShell (literalText : String) (stdout : String) : SearchShellCall :=
  { args := pySplitWhitespace literalText
  , shell := true
  , specs := pySplitOn stdout "\n" }

/-! ## Dependency flag decoding (Instr._replace_keywords) -/

/-- Translation of a known template escape character
(`\a \b \f \n \r \t \v`). -/
def templEscape (c : Char) : Option Char :=
  if c = 'a' then some (Char.ofNat 7)
  else if c = 'b' then some (Char.ofNat 8)
  else if c = 'f' then some (Char.ofNat 12)
  else if c = 'n' then some (Char.ofNat 10)
  else if c = 'r' then some (Char.ofNat 13)
  else if c = 't' then some (Char.ofNat 9)
  else if c = 'v' then some (Char.ofNat 11)
  else none

/-- Python `re` replacement-template processing, as performed by `re.sub`
when the replacement is a string: `\\` and the control escapes are
translated; `\g` and digit escapes are group references — invalid for the
group-free `@KEY@` patterns used by `_replace_keywords`; a backslash
before any other ASCII letter raises `bad escape`; a backslash before a
non-letter is kept verbatim. -/
def expandTemplateAux : List Char → Except String (List Char)
  | [] => .ok []
  | ['\\'] => .error "bad escape (end of pattern)"
  | '\\' :: c :: rest =>
    if c = '\\' then do
      let r ← expandTemplateAux rest
      .ok ('\\' :: r)
    else
      match templEscape c with
      | some e => do
        let r ← expandTemplateAux rest
        .ok (e :: r)
      | none =>
        if c = 'g' ∨ c.isDigit then .error "invalid group reference"
        else if c.isAlpha then .error ("bad escape \\" ++ c.toString)
        else do
          let r ← expandTemplateAux rest
          .ok ('\\' :: c :: r)
  | c :: rest => do
    let r ← expandTemplateAux rest
    .ok (c :: r)

/-- Template processing on a string. -/
def expandTemplate (repl : String) : Except String String :=
  (expandTemplateAux repl.data).map List.asString

/-- `re.sub(pattern, repl, s)` for the literal, group-free patterns
(`@KEY@`) used in `_replace_keywords`: compile the replacement template,
then replace every occurrence of the pattern. -/
def pySubLiteral (pat repl s : String) : Except String String := do
  let r ← expandTemplate repl
  .ok (strReplace s pat r)

/-- `re.findall(r'@(\w+)@', flag)`: non-overlapping left-to-right scan
for `@`, one-or-more word characters, `@`; scanning resumes after a
complete match, or one character further on a failed attempt. -/
def findAtKeysAux : Nat → List Char → List String
  | 0, _ => []
  | _ + 1, [] => []
  | fuel + 1, c :: rest =>
    if c = '@' then
      match rest.span (fun d => d.isAlphanum || d = '_') with
      | (w, next) =>
        match w, next with
        | [], _ => findAtKeysAux fuel rest
        | _ :: _, '@' :: rest' => String.mk w :: findAtKeysAux fuel rest'
        | _ :: _, _ => findAtKeysAux fuel rest
    else findAtKeysAux fuel rest

/-- All `@KEY@` keys of a flag string, in order. -/
def findAtKeys (s : String) : List String :=
  findAtKeysAux s.length s.data

/-- `config_fallback(cfg, key)` (config/fallback.py): a cached key is
returned directly; otherwise the external program chain runs
(`{key}-config --show buildflags`, falling back to `-l{key}`), which the
`external` function stands for. -/
def configFallback (cfg : String → Option String) (external : String → String)
    (key : String) : String :=
  (cfg key).getD (external key)

/-- `Instr._replace_keywords(flag)`: the `@NEXUSFLAGS@` and
`@MCCODE_LIB@` special cases first, then for every key of
`findall(r'@(\w+)@', flag)` whose lower-case form ends in `flags`,
substitute the configured value with `re.sub` — whose replacement-template
processing interprets backslashes in the configured value (keys that do
not end in `flags` only produce a warning). -/
def replaceKeywords (cfg : String → Option String) (external : String → String)
    (nexusValue : String) (flag : String) : Except String String := do
  let flag1 ←
    if containsSub flag "@NEXUSFLAGS@" then pySubLiteral "@NEXUSFLAGS@" nexusValue flag
    else .ok flag
  let flag2 ←
    if containsSub flag1 "@MCCODE_LIB@" then pySubLiteral "@MCCODE_LIB@" "." flag1
    else .ok flag1
  (findAtKeys flag2).foldlM
    (fun fl k =>
      if strEndsWith (strToLower k) "flags" then
        pySubLiteral ("@" ++ k ++ "@")
          (configFallback cfg external (strDropRight (strToLower k) 5)) fl
      else .ok fl)
    flag2

/-! ## Component cache and Reader.contents (reader/reader.py) -/

/-- On-disk sidecar content: a JSON blob that either decodes to a
component or is corrupt (decoding raises). -/
inductive SidecarBlob (C : Type)
  | good (c : C)
  | corrupt
deriving DecidableEq, Repr

/-- The state `_ComponentCache` sees for a single located `.comp` path:
the source file's mtime, the optional `{name}.comp.json` sidecar (its
mtime and blob), the in-memory store entry for the path, and whether the
directory is writable (sidecar writes are best-effort). -/
structure CacheState (C : Type) where
  compMtime : Nat
  sidecar : Option (Nat × SidecarBlob C)
  memStore : Option (Nat × C)
  writable : Bool
deriving DecidableEq, Repr

/-- Decoding a sidecar blob (`from_json`); a corrupt blob raises. -/
def decodeBlob {C : Type} : SidecarBlob C → Except String C
  | .good c => .ok c
  | .corrupt => .error "CacheCorrupt"

/-- Level 2 of `_ComponentCache.get`: decode the sidecar when it exists
and its mtime is at least the source's; a decode failure is swallowed
(`except Exception: pass`) and the lookup falls through to `None`.  The
sidecar file is never deleted. -/
def cacheGetDisk {C : Type} (st : CacheState C) : CacheState C × Option C :=
  match st.sidecar with
  | some (jm, blob) =>
    if st.compMtime ≤ jm then
      match decodeBlob blob with
      | .ok c => ({ st with memStore := some (st.compMtime, c) }, some c)
      | .error _ => (st, none)
    else (st, none)
  | none => (st, none)

/-- `_ComponentCache.get`: level 1 consults the in-memory store, evicting
a stale entry, then level 2 tries the sidecar. -/
def cacheGet {C : Type} (st : CacheState C) : CacheState C × Option C :=
  match st.memStore with
  | some (m, c) =>
    if m = st.compMtime then (st, some c)
    else cacheGetDisk { st with memStore := none }
  | none => cacheGetDisk st

/-- `_ComponentCache.put`: store in memory, then write the sidecar
best-effort (skipped when the directory is not writable); `now` is the
mtime of the freshly written sidecar. -/
def cachePut {C : Type} (st : CacheState C) (c : C) (now : Nat) : CacheState C :=
  let st1 := { st with memStore := some (st.compMtime, c) }
  if st1.writable then { st1 with sidecar := some (now, .good c) } else st1

/-- The cache path of `Reader.add_component` for a located `.comp` file:
try the cache; on a miss parse the source (the ANTLR pipeline,
abstracted as `parse`) and publish the result with `component_cache.put`.
Returns the updated state and the component handed to the caller. -/
def addComponent {C : Type} (parse : String → C) (source : String) (now : Nat)
    (st : CacheState C) : CacheState C × C :=
  match cacheGet st with
  | (st1, some c) => (st1, c)
  | (st1, none) =>
    let c := parse source
    (cachePut st1 c now, c)

/-- A registry, abstracted to the capabilities `Reader.contents` uses:
`known(name, ext, strict)` and `contents(name, ext)`. -/
structure Registry where
  rname : String
  known : String → Option String → Bool → Bool
  contents : String → Option String → String

/-- The reader state for `contents`: the ordered registry list plus the
process-level source-override map
(`_ComponentCache._source_overrides`). -/
structure ReaderSt where
  registries : List Registry
  overrides : List (String × String)

/-- `_ComponentCache.get_override`. -/
def getOverride (st : ReaderSt) (name : String) : Option String :=
  (st.overrides.find? (fun p => p.1 == name)).map (fun p => p.2)

/-- The ordered registry search of `Reader.contents` (`which=None`): the
first registry that knows the name serves the contents; otherwise the
lookup raises `not found`. -/
def registrySearchContents (st : ReaderSt) (name : String) (ext : Option String)
    (strict : Bool) : Except String String :=
  match st.registries.find? (fun reg => reg.known name ext strict) with
  | some reg => .ok (reg.contents name ext)
  | none => .error (name ++ " not found")

/-- `Reader.contents` with the default `which=None`: for `ext` of `None`
or `'.comp'` an in-memory source override wins without consulting any
registry; otherwise the ordered registry search runs unchanged. -/
def readerContents (st : ReaderSt) (name : String) (ext : Option String)
    (strict : Bool) : Except String String :=
  let fromOverride : Option String :=
    if ext = none ∨ ext = some ".comp" then getOverride st name else none
  match fromOverride with
  | some text => .ok text
  | none => registrySearchContents st name ext strict

/-! ### Facts used across the expression theorems -/

theorem idLit_value_isId (s : String) : (Value.make (.strVal s) none).isId = true := rfl

theorem idLit_isZero (s : String) : (idLit s).isZero = false := rfl

theorem idLit_isValueInt (s : String) (n : Int) :
    (idLit s).isValueInt n = false := rfl

theorem isId_isValueInt {v : Value} (h : v.isId = true) (n : Int) :
    v.isValueInt n = false := by
  rcases v with ⟨p, d, o, sh⟩
  cases p with
  | num q => simp [Value.isId] at h
  | strVal s => rfl

theorem isId_isZero {v : Value} (h : v.isId = true) : v.isZero = false := by
  simp [Value.isZero, h]

/-! ### C2: division by a literal zero -/

/-- C2 counterexample: the claim states that dividing *any* expression by a
literal-zero `Value` raises DivisionByZero, *including when the numerator is
itself a literal zero*.  In `Value.__truediv__` the zero-numerator
short-circuit runs first, so `Value(0) / Value(0)` returns `Value(0)` and does
not raise. -/
theorem C2_zero_over_zero_counterexample :
    ExprT.div (intLit 0) (intLit 0) = .ok (.val (Value.make (.num 0) (some .int))) ∧
    raises (ExprT.div (intLit 0) (intLit 0)) = false := by
  exact ⟨rfl, rfl⟩

/-- C2 (amended): dividing any expression that is *not* a literal-zero
`Value` by a literal-zero `Value` raises DivisionByZero; a literal-zero
numerator instead short-circuits to `Value(0)` for every divisor; and
dividing a non-zero expression by a symbolic (identifier) zero is not
detected and returns a symbolic `BinaryOp('/')` node. -/
theorem C2_division_by_zero_amended :
    (∀ x : ExprT, x.isZero = false → raises (ExprT.div x (intLit 0)) = true) ∧
    (∀ (x : ExprT) (s : String), x.isZero = false →
      ExprT.div x (idLit s) = .ok (.binary "/" x (idLit s))) ∧
    (∀ (v : Value) (d : ExprT), v.isZero = true →
      ExprT.div (.val v) d =
        .ok (.val (Value.make (.num 0)
          (some (if (DataType.add v.data_type d.dataType).isStr then .int
                 else DataType.add v.data_type d.dataType))))) := by
  refine ⟨?_, ?_, ?_⟩
  · intro x hx
    cases x with
    | val v =>
      have hvz : v.isZero = false := by simpa [ExprT.isZero] using hx
      simp [ExprT.div, valueTruediv, hvz,
            show (intLit 0).isValueInt 1 = false from by decide,
            show (intLit 0).isValueInt (-1) = false from by decide,
            show (intLit 0).isZero = true from by decide, raises]
    | unary op a =>
      simp [ExprT.div, opDiv, show (intLit 0).isZero = true from by decide, raises]
    | binary op l r =>
      simp [ExprT.div, opDiv, show (intLit 0).isZero = true from by decide, raises]
  · intro x s hx
    cases x with
    | val v =>
      have hvz : v.isZero = false := by simpa [ExprT.isZero] using hx
      simp [ExprT.div, valueTruediv, hvz, idLit_isValueInt, idLit_isZero,
            show ∀ t, (idLit t).isId = true from fun _ => rfl, ExprT.isOp]
    | unary op a =>
      simp [ExprT.div, opDiv, idLit_isValueInt, idLit_isZero]
    | binary op l r =>
      simp [ExprT.div, opDiv, idLit_isValueInt, idLit_isZero]
  · intro v d hv
    simp [ExprT.div, valueTruediv, hv]

/-- C2 witness: the amended theorem applied at `5 / 0`, `5 / z` and to the
literal-zero numerator `0 / z`. -/
theorem C2_division_by_zero_witness :
    raises (ExprT.div (intLit 5) (intLit 0)) = true ∧
    ExprT.div (intLit 5) (idLit "z") = .ok (.binary "/" (intLit 5) (idLit "z")) ∧
    ExprT.div (.val (Value.make (.num 0) (some .int))) (idLit "z") =
      .ok (.val (Value.make (.num 0) (some .int))) := by
  obtain ⟨h1, h2, h3⟩ := C2_division_by_zero_amended
  refine ⟨h1 (intLit 5) (by decide), h2 (intLit 5) "z" (by decide), ?_⟩
  simpa using h3 (Value.make (.num 0) (some .int)) (idLit "z") (by decide)

/-! ### C6: data-type promotion -/

/-- C6 counterexample: the claim states that combining an `int` operand with
a `float` operand yields `float`; `DataType.__add__` yields `int` for that
mix in both orders. -/
theorem C6_float_int_counterexample :
    DataType.add .float .int = .int ∧ DataType.add .int .float = .int ∧
    DataType.add .int .float ≠ .float := by decide

/-- C6 (amended): `DataType.__add__` agrees with the amended rule
`dtCombineSpec` and is symmetric. -/
theorem C6_data_type_promotion_amended :
    ∀ a b : DataType,
      DataType.add a b = dtCombineSpec a b ∧ DataType.add a b = DataType.add b a := by
  intro a b
  cases a <;> cases b <;> exact ⟨rfl, rfl⟩

/-! ### C7: folding never evaluates an identifier -/

/-- C7 counterexample: multiplying an identifier `Value` by a literal zero
folds to the constant literal `Value(0)`, and raising an identifier to a
literal-zero power folds to the constant literal `Value(1)` — both replace
the identifier-bearing expression with a constant literal `Value`. -/
theorem C7_identifier_annihilated_counterexample :
    ExprT.mul (idLit "x") (intLit 0) = .val (Value.make (.num 0) (some .int)) ∧
    (ExprT.mul (idLit "x") (intLit 0)).isConstantValue = true ∧
    ExprT.pow (idLit "x") (intLit 0) =
      some (.val (Value.make (.num 1) (some .undefined))) ∧
    (ExprT.val (Value.make (.num 1) (some .undefined))).isConstantValue = true := by
  refine ⟨by decide, by decide, rfl, by decide⟩

/-- Joint add/sub lemma: folding an identifier `Value` with any expression
never produces a constant literal `Value`. -/
theorem valueAdd_valueSub_id_not_constant (v : Value) (hv : v.isId = true) :
    ∀ o : ExprT,
      (valueAdd v o).isConstantValue = false ∧ (valueSub v o).isConstantValue = false := by
  have hvz : v.isZero = false := isId_isZero hv
  intro o
  induction o with
  | val w =>
    constructor
    · simp only [valueAdd, hvz, Bool.false_eq_true, if_false]
      split_ifs with h1 h2 h3 h4
      · simp [ExprT.isConstantValue, hv]
      · rcases hw : w.value with q | s <;> simp [hw, ExprT.isConstantValue]
      · simp [ExprT.isConstantValue]
      · simp [ExprT.isConstantValue]
      · exact absurd (Or.inl hv) h3
    · simp only [valueSub, hvz, Bool.false_eq_true, if_false]
      split_ifs with h1 h2 h3 h4
      · simp [ExprT.isConstantValue, hv]
      · rcases hw : w.value with q | s <;> simp [hw, ExprT.isConstantValue]
      · simp [ExprT.isConstantValue]
      · simp [ExprT.isConstantValue]
      · exact absurd (Or.inl hv) h3
  | unary op a ih =>
    constructor
    · simp only [valueAdd, hvz, Bool.false_eq_true, if_false, ExprT.isZero]
      split_ifs with h1
      · exact ih.2
      · simp [ExprT.isConstantValue]
    · simp only [valueSub, hvz, Bool.false_eq_true, if_false, ExprT.isZero]
      split_ifs with h1
      · exact ih.1
      · simp [ExprT.isConstantValue]
  | binary op l r ihl ihr =>
    constructor
    · simp [valueAdd, hvz, ExprT.isZero, ExprT.isConstantValue]
    · simp [valueSub, hvz, ExprT.isZero, ExprT.isConstantValue]

/-- C7 (amended): folding with `add`, `sub`, `div` (when it does not raise),
`neg` and `abs` applied to an identifier `Value` never produces a constant
literal; `mul` and `pow` preserve the identifier except in the two
annihilator cases — multiplication by a literal zero folds to the literal
`Value(0)` and a literal-zero exponent folds to the literal `Value(1)`,
each of which drops the identifier. -/
theorem C7_identifier_folding_amended :
    (∀ v : Value, v.isId = true → (ExprT.neg (.val v)).isConstantValue = false) ∧
    (∀ v : Value, v.isId = true → (ExprT.absOp (.val v)).isConstantValue = false) ∧
    (∀ (v : Value) (o : ExprT), v.isId = true →
      (ExprT.add (.val v) o).isConstantValue = false ∧
      (ExprT.sub (.val v) o).isConstantValue = false) ∧
    (∀ (v : Value) (o e : ExprT), v.isId = true →
      ExprT.div (.val v) o = .ok e → e.isConstantValue = false) ∧
    (∀ (v : Value) (o : ExprT), v.isId = true → o.isZero = false →
      (ExprT.mul (.val v) o).isConstantValue = false) ∧
    (∀ (v : Value) (p : ExprT), v.isId = true → p.isZero = false →
      (valuePow v p).isConstantValue = false) ∧
    (∀ (v : Value) (o : ExprT), v.isId = true → o.isZero = true →
      ExprT.mul (.val v) o =
        .val (Value.make (.num 0)
          (some (if (DataType.add v.data_type o.dataType).isStr then .int
                 else DataType.add v.data_type o.dataType)))) ∧
    (∀ (v : Value) (p : ExprT), v.isId = true → p.isZero = true →
      valuePow v p = .val (Value.make (.num 1) (some v.data_type))) := by
  refine ⟨?_, ?_, ?_, ?_, ?_, ?_, ?_, ?_⟩
  · intro v hv
    simp [ExprT.neg, hv, ExprT.isConstantValue]
  · intro v hv
    simp [ExprT.absOp, hv, ExprT.isConstantValue]
  · intro v o hv
    exact valueAdd_valueSub_id_not_constant v hv o
  · intro v o e hv hok
    have hvz : v.isZero = false := isId_isZero hv
    simp only [ExprT.div, valueTruediv, hvz, Bool.false_eq_true, if_false] at hok
    split_ifs at hok with c1 c2 c3 c4
    · cases hok
      simp [ExprT.isConstantValue, hv]
    · cases hok
      simp [ExprT.neg, hv, ExprT.isConstantValue]
    · cases hok
      simp [ExprT.isConstantValue]
    · cases hok
      simp [ExprT.isConstantValue]
    · exact absurd (Or.inr (Or.inl hv)) c4
  · intro v o hv ho
    have hvz : v.isZero = false := isId_isZero hv
    simp [ExprT.mul, valueMul, hvz, ho, isId_isValueInt hv 1, isId_isValueInt hv (-1),
          hv, ExprT.isConstantValue]
  · intro v p hv hp
    have hvz : v.isZero = false := isId_isZero hv
    simp [valuePow, hvz, isId_isValueInt hv 1, hp, ExprT.isConstantValue]
  · intro v o hv ho
    have hvz : v.isZero = false := isId_isZero hv
    simp [ExprT.mul, valueMul, ho]
  · intro v p hv hp
    have hvz : v.isZero = false := isId_isZero hv
    simp [valuePow, hvz, isId_isValueInt hv 1, hp]

/-- C7 witness: the amended theorem applied to the identifier `x` with the
literal `5` (and the annihilator cases with literal `0`). -/
theorem C7_identifier_folding_witness :
    (ExprT.neg (idLit "x")).isConstantValue = false ∧
    (ExprT.absOp (idLit "x")).isConstantValue = false ∧
    (ExprT.add (idLit "x") (intLit 5)).isConstantValue = false ∧
    (ExprT.sub (idLit "x") (intLit 5)).isConstantValue = false ∧
    (ExprT.binary "/" (idLit "x") (intLit 5)).isConstantValue = false ∧
    (ExprT.mul (idLit "x") (intLit 5)).isConstantValue = false ∧
    (valuePow (Value.make (.strVal "x") none) (intLit 5)).isConstantValue = false ∧
    ExprT.mul (idLit "x") (intLit 0) = .val (Value.make (.num 0) (some .int)) ∧
    valuePow (Value.make (.strVal "x") none) (intLit 0) =
      .val (Value.make (.num 1) (some .undefined)) := by
  obtain ⟨h1, h2, h3, h4, h5, h6, h7, h8⟩ := C7_identifier_folding_amended
  refine ⟨h1 (Value.make (.strVal "x") none) rfl, h2 (Value.make (.strVal "x") none) rfl,
          (h3 (Value.make (.strVal "x") none) (intLit 5) rfl).1,
          (h3 (Value.make (.strVal "x") none) (intLit 5) rfl).2,
          h4 (Value.make (.strVal "x") none) (intLit 5)
            (.binary "/" (idLit "x") (intLit 5)) rfl rfl,
          h5 (Value.make (.strVal "x") none) (intLit 5) rfl (by decide),
          h6 (Value.make (.strVal "x") none) (intLit 5) rfl (by decide), ?_, ?_⟩
  · simpa using h7 (Value.make (.strVal "x") none) (intLit 0) rfl (by decide)
  · simpa using h8 (Value.make (.strVal "x") none) (intLit 0) rfl (by decide)

/-! ### C3: insert_component invalidates jumps; the rebuild resolves by name -/

/-- C3: after `insert_component`, every `Jump.absolute_target` on every
instance equals `-1`; and in the concrete scenario
`a, b, c JUMP b WHEN(1), d` (jump already resolved to index 1) with a
new component `x` inserted between `a` and `b`, the rebuilt flow-edge
records contain exactly one jump edge, ending at `b` by name (now index
2). -/
theorem C3_insert_component_invalidates_jumps :
    (∀ (cs : List Instance) (pos : Nat) (newInst : Instance),
      ∀ inst ∈ insertComponent cs pos newInst, ∀ j ∈ inst.jump,
        j.absolute_target = -1) ∧
    ((insertComponent
        [⟨"a", none, none, []⟩, ⟨"b", none, none, []⟩,
         ⟨"c", none, none, [⟨"b", 0, false, intLit 1, 1⟩]⟩,
         ⟨"d", none, none, []⟩] 1 ⟨"x", none, none, []⟩).map Instance.name =
      ["a", "x", "b", "c", "d"] ∧
     (buildFlowEdgeRecords (insertComponent
        [⟨"a", none, none, []⟩, ⟨"b", none, none, []⟩,
         ⟨"c", none, none, [⟨"b", 0, false, intLit 1, 1⟩]⟩,
         ⟨"d", none, none, []⟩] 1 ⟨"x", none, none, []⟩)).filter isJumpEdge =
      [⟨"c", "b", .jump (intLit 1) false 2⟩]) := by
  constructor
  · intro cs pos newInst inst hmem j hj
    rw [insertComponent, List.mem_map] at hmem
    obtain ⟨c, _, rfl⟩ := hmem
    rw [invalidateJumpTargets] at hj
    simp only [List.mem_map] at hj
    obtain ⟨j0, _, rfl⟩ := hj
    rfl
  · exact ⟨by decide, by decide⟩

/-- C3 witness: the invalidation part applied to the concrete insertion of
`x` between `a` and `b`: the jump carried by `c` has `absolute_target`
`-1` afterwards. -/
theorem C3_insert_component_witness :
    (⟨"b", 0, false, intLit 1, -1⟩ : Jump).absolute_target = -1 :=
  C3_insert_component_invalidates_jumps.1
    [⟨"a", none, none, []⟩, ⟨"b", none, none, []⟩,
     ⟨"c", none, none, [⟨"b", 0, false, intLit 1, 1⟩]⟩,
     ⟨"d", none, none, []⟩] 1 ⟨"x", none, none, []⟩
    ⟨"c", none, none, [⟨"b", 0, false, intLit 1, -1⟩]⟩ (by decide)
    ⟨"b", 0, false, intLit 1, -1⟩ (by decide)

/-! ### C4: SEARCH SHELL -/

/-- C4: evaluating the embedded `visitSearchShell` at
`SEARCH SHELL "echo /tmp/x"` whose command output is `/tmp/x\n`.  The
code passes the still-quoted, whitespace-split token text to
`subprocess.run` with `shell=True`, and registers every output field of
`split('\n')` — the trailing empty line included — where the claim (and
`tests/instr/test_search.py`) require `shell=False`, stripped quotes and
only non-empty lines. -/
theorem C4_search_shell_divergence :
    visitSearchShell "\"echo /tmp/x\"" "/tmp/x\n" =
      { args := ["\"echo", "/tmp/x\""], shell := true, specs := ["/tmp/x", ""] } ∧
    (visitSearchShell "\"echo /tmp/x\"" "/tmp/x\n").shell ≠ false ∧
    (visitSearchShell "\"echo /tmp/x\"" "/tmp/x\n").specs ≠ ["/tmp/x"] ∧
    (visitSearchShell "\"echo /tmp/x\"" "/tmp/x\n").args ≠ ["echo", "/tmp/x"] := by
  refine ⟨rfl, by decide, by decide, by decide⟩

/-! ### C5: `@NCRYSTALFLAGS@` with backslashes -/

/-- C5: with the configuration cache holding
`" /IC:\hosted\NCrystal.lib"` for the `ncrystal` key, decoding the flag
`"@NCRYSTALFLAGS@"` raises `re.error: bad escape \h` — `re.sub`
interprets the configured value as a replacement template, where `\h` is
an invalid escape — instead of producing the configured string verbatim
as the claim (and `tests/instr/test_flags.py`) state. -/
theorem C5_ncrystal_backslash_flags :
    replaceKeywords
      (fun k => if k = "ncrystal" then some " /IC:\\hosted\\NCrystal.lib" else none)
      (fun k => "-l" ++ k) "" "@NCRYSTALFLAGS@" = .error "bad escape \\h" ∧
    replaceKeywords
      (fun k => if k = "ncrystal" then some " /IC:\\hosted\\NCrystal.lib" else none)
      (fun k => "-l" ++ k) "" "@NCRYSTALFLAGS@" ≠ .ok " /IC:\\hosted\\NCrystal.lib" := by
  have h : replaceKeywords
      (fun k => if k = "ncrystal" then some " /IC:\\hosted\\NCrystal.lib" else none)
      (fun k => "-l" ++ k) "" "@NCRYSTALFLAGS@" = .error "bad escape \\h" := rfl
  exact ⟨h, by rw [h]; simp⟩

/-! ### C8: corrupt sidecar recovery -/

/-- C8 counterexample: the claim states that the corrupt sidecar is
*deleted*.  Running the resolution on a state whose sidecar is corrupt
(source mtime 5, sidecar mtime 6, cold memory, writable directory): the
sidecar file still exists afterwards — it was overwritten by the
best-effort cache write with the freshly parsed component, not deleted. -/
theorem C8_sidecar_not_deleted_counterexample :
    addComponent (fun s => s.length) "comp source" 7
        ⟨5, some (6, .corrupt), none, true⟩ =
      (⟨5, some (7, .good 11), some (5, 11), true⟩, 11) ∧
    (addComponent (fun s => s.length) "comp source" 7
        ⟨5, some (6, .corrupt), none, true⟩).1.sidecar ≠ none := by
  have h : addComponent (fun s : String => s.length) "comp source" 7
      ⟨5, some (6, .corrupt), none, true⟩ =
      (⟨5, some (7, .good 11), some (5, 11), true⟩, 11) := rfl
  exact ⟨h, by rw [h]; simp⟩

/-- C8 (amended): with a corrupt sidecar and a cold in-memory store, the
resolution recovers silently — the decode failure is swallowed, the
`.comp` source is re-parsed and returned, and the sidecar is *not*
deleted: it is overwritten by the best-effort cache write when the
directory is writable, and left in place otherwise. -/
theorem C8_cache_corrupt_recovery_amended {C : Type} (parse : String → C)
    (source : String) (now jm : Nat) (st : CacheState C)
    (hside : st.sidecar = some (jm, .corrupt))
    (hmem : st.memStore = none) :
    addComponent parse source now st =
      ({ st with
          memStore := some (st.compMtime, parse source),
          sidecar := if st.writable then some (now, .good (parse source))
                     else st.sidecar },
       parse source) ∧
    (addComponent parse source now st).1.sidecar ≠ none := by
  obtain ⟨mt, sc, ms, w⟩ := st
  dsimp only at hside hmem
  subst hside
  subst hmem
  have hget : cacheGet (⟨mt, some (jm, .corrupt), none, w⟩ : CacheState C) =
      (⟨mt, some (jm, .corrupt), none, w⟩, none) := by
    simp only [cacheGet, cacheGetDisk, decodeBlob]
    split <;> rfl
  constructor
  · simp only [addComponent, hget, cachePut]
    by_cases hw : w <;> simp [hw]
  · simp only [addComponent, hget, cachePut]
    by_cases hw : w <;> simp [hw]

/-- C8 witness: the amended theorem at the concrete corrupt-sidecar
state. -/
theorem C8_cache_corrupt_recovery_witness :
    addComponent (fun s : String => s ++ "!") "src" 9
        ⟨4, some (5, .corrupt), none, true⟩ =
      (⟨4, some (9, .good "src!"), some (4, "src!"), true⟩, "src!") := by
  have h := (C8_cache_corrupt_recovery_amended (fun s : String => s ++ "!") "src" 9 5
    ⟨4, some (5, .corrupt), none, true⟩ rfl rfl).1
  simpa using h

/-! ### C10: source overrides win for `.comp` lookups -/

/-- C10: when a source override is stored for a name,
`Reader.contents` with extension `None` or `'.comp'` returns the
override without consulting any registry (no `not found` error can be
raised even when no registry knows the name); for any other extension
the override is ignored and the ordered registry search applies
unchanged. -/
theorem C10_override_contents (st : ReaderSt) (name text : String) (strict : Bool)
    (h : getOverride st name = some text) :
    readerContents st name none strict = .ok text ∧
    readerContents st name (some ".comp") strict = .ok text ∧
    ∀ ext : Option String, ext ≠ none → ext ≠ some ".comp" →
      readerContents st name ext strict = registrySearchContents st name ext strict := by
  refine ⟨?_, ?_, ?_⟩
  · simp [readerContents, h]
  · simp [readerContents, h]
  · intro ext h1 h2
    simp [readerContents, h1, h2]

/-- C10 witness: an override with an *empty* registry list — the
override is returned for `None` and `'.comp'` with no error, and an
`'.instr'` lookup runs the registry search (which fails, the override
being ignored). -/
theorem C10_override_contents_witness :
    readerContents ⟨[], [("Comp1", "live text")]⟩ "Comp1" none false = .ok "live text" ∧
    readerContents ⟨[], [("Comp1", "live text")]⟩ "Comp1" (some ".comp") false =
      .ok "live text" ∧
    readerContents ⟨[], [("Comp1", "live text")]⟩ "Comp1" (some ".instr") false =
      registrySearchContents ⟨[], [("Comp1", "live text")]⟩ "Comp1" (some ".instr") false ∧
    registrySearchContents ⟨[], [("Comp1", "live text")]⟩ "Comp1" (some ".instr") false =
      .error "Comp1 not found" := by
  obtain ⟨h1, h2, h3⟩ :=
    C10_override_contents ⟨[], [("Comp1", "live text")]⟩ "Comp1" "live text" false rfl
  exact ⟨h1, h2, h3 (some ".instr") (by simp) (by simp), rfl⟩

/-! ### C1: GROUP flow edges -/

theorem adjPairs_nil : adjPairs [] = [] := rfl

theorem adjPairs_single (a : Instance) : adjPairs [a] = [] := rfl

theorem adjPairs_cons_cons (a b : Instance) (t : List Instance) :
    adjPairs (a :: b :: t) = (a, b) :: adjPairs (b :: t) := rfl

theorem adjPairs_append (xs ys : List Instance) :
    adjPairs (xs ++ ys) =
      adjPairs xs ++
        (match xs.getLast?, ys.head? with
         | some a, some b => [(a, b)]
         | _, _ => []) ++ adjPairs ys := by
  induction xs with
  | nil => simp [adjPairs_nil]
  | cons a t ih =>
    cases t with
    | nil =>
      cases ys with
      | nil => simp [adjPairs_single, adjPairs_nil]
      | cons b u => simp [adjPairs_single, adjPairs_cons_cons]
    | cons b t2 =>
      rw [show (a :: b :: t2) ++ ys = a :: b :: (t2 ++ ys) from rfl,
          adjPairs_cons_cons a b (t2 ++ ys), adjPairs_cons_cons a b t2,
          List.getLast?_cons_cons]
      rw [show adjPairs (b :: (t2 ++ ys)) = adjPairs ((b :: t2) ++ ys) from rfl, ih]
      simp

theorem mem_adjPairs {p : Instance × Instance} :
    ∀ {l : List Instance}, p ∈ adjPairs l → p.1 ∈ l ∧ p.2 ∈ l := by
  intro l
  induction l with
  | nil => intro h; cases h
  | cons a t ih =>
    cases t with
    | nil => intro h; cases h
    | cons b t2 =>
      intro h
      rw [adjPairs_cons_cons, List.mem_cons] at h
      rcases h with h | h
      · subst h
        exact ⟨List.mem_cons_self .., List.mem_cons_of_mem _ (List.mem_cons_self ..)⟩
      · have := ih h
        exact ⟨List.mem_cons_of_mem _ this.1, List.mem_cons_of_mem _ this.2⟩

theorem mem_of_getLast_eq_some {l : List Instance} {a : Instance}
    (h : l.getLast? = some a) : a ∈ l := by
  cases l with
  | nil => cases h
  | cons x t => exact List.mem_of_mem_getLast? h


theorem filterMap_all_none {α β : Type} (f : α → Option β) (l : List α)
    (h : ∀ a ∈ l, f a = none) : l.filterMap f = [] := by
  induction l with
  | nil => rfl
  | cons a t ih =>
    rw [List.filterMap_cons, h a (List.mem_cons_self ..)]
    exact ih fun b hb => h b (List.mem_cons_of_mem _ hb)

theorem filterMap_all_some {α β : Type} (f : α → Option β) (m : α → β) (l : List α)
    (h : ∀ a ∈ l, f a = some (m a)) : l.filterMap f = l.map m := by
  induction l with
  | nil => rfl
  | cons a t ih =>
    rw [List.filterMap_cons, h a (List.mem_cons_self ..), List.map_cons]
    rw [ih fun b hb => h b (List.mem_cons_of_mem _ hb)]

theorem filter_filterMap_comm {α β : Type} (f : α → Option β) (p : β → Bool) (l : List α) :
    (l.filterMap f).filter p = l.filterMap (fun a => Option.filter p (f a)) := by
  induction l with
  | nil => rfl
  | cons a t ih =>
    rw [List.filterMap_cons, List.filterMap_cons]
    cases hfa : f a with
    | none => simpa [Option.filter] using ih
    | some b =>
      by_cases hp : p b
      · simp [Option.filter, hp, List.filter_cons, ih]
      · simp [Option.filter, hp, List.filter_cons, ih]

/-- TryNext characterisation of one adjacent pair. -/
theorem pairEdge_tryNext_char (g : String) (s d : Instance) :
    Option.filter (isTryNextG g) (pairEdge s d) =
      (if s.group = some g ∧ d.group = some g
       then some ⟨s.name, d.name, .group g .TRY_NEXT⟩ else none) := by
  by_cases hc : s.group = some g ∧ d.group = some g
  · obtain ⟨hs, hd⟩ := hc
    simp [pairEdge, hs, hd, isTryNextG, Option.filter]
  · rw [if_neg hc]
    cases hs : s.group with
    | none => simp [pairEdge, hs, isTryNextG, Option.filter]
    | some sg =>
      by_cases hd : d.group = some sg
      · have hsg : sg ≠ g := by
          rintro rfl
          exact hc ⟨hs, hd⟩
        simp [pairEdge, hs, hd, isTryNextG, hsg, Option.filter]
      · by_cases hex : sg ≠ d.group.getD ""
        · simp [pairEdge, hs, hd, hex, Option.filter]
        · simp [pairEdge, hs, hd, hex, isTryNextG, Option.filter]

/-- A sequential record emitted for a pair forces the source's group to
be `None`, or to have the (necessarily empty) name `dst.group or ''`. -/
theorem pairEdge_sequential_src (s d : Instance) (r : FlowEdgeRecord)
    (h : pairEdge s d = some r) (hseq : isSequentialEdge r = true) :
    r.src = s.name ∧
      (s.group = none ∨ (s.group = some (d.group.getD "") ∧ d.group ≠ s.group)) := by
  cases hs : s.group with
  | none =>
    rw [pairEdge, hs] at h
    cases h
    exact ⟨rfl, Or.inl rfl⟩
  | some sg =>
    rw [pairEdge, hs] at h
    dsimp only at h
    by_cases hd : d.group = some sg
    · rw [if_pos hd] at h
      cases h
      simp [isSequentialEdge] at hseq
    · rw [if_neg hd] at h
      by_cases hex : sg ≠ d.group.getD ""
      · rw [if_pos hex] at h
        cases h
      · rw [if_neg hex] at h
        cases h
        push_neg at hex
        exact ⟨rfl, Or.inr ⟨by rw [hex], hd⟩⟩

/-- Every record of the sequential loop is a `Sequential` or a
`TRY_NEXT` edge. -/
theorem mem_seqRecords_edge (cs : List Instance) (r : FlowEdgeRecord)
    (h : r ∈ seqRecords cs) :
    (∃ w, r.edge = .sequential w) ∨ ∃ gn, r.edge = .group gn .TRY_NEXT := by
  rw [seqRecords, List.mem_filterMap] at h
  obtain ⟨p, _, hp⟩ := h
  rcases hs : p.1.group with _ | sg
  · rw [pairEdge, hs] at hp
    cases hp
    exact Or.inl ⟨p.2.whenExpr, rfl⟩
  · rw [pairEdge, hs] at hp
    dsimp only at hp
    by_cases hd : p.2.group = some sg
    · rw [if_pos hd] at hp
      cases hp
      exact Or.inr ⟨sg, rfl⟩
    · rw [if_neg hd] at hp
      by_cases hex : sg ≠ p.2.group.getD ""
      · rw [if_pos hex] at hp
        cases hp
      · rw [if_neg hex] at hp
        cases hp
        exact Or.inl ⟨p.2.whenExpr, rfl⟩

/-- Every record of the group-exit loop carries a `Group` edge of its own
group name, of kind `SCATTER_EXIT` or `PASS_THROUGH`. -/
theorem mem_groupExitRecords_edge (cs : List Instance) (gname : String)
    (r : FlowEdgeRecord) (h : r ∈ groupExitRecords cs gname) :
    r.edge = .group gname .SCATTER_EXIT ∨ r.edge = .group gname .PASS_THROUGH := by
  rw [groupExitRecords] at h
  rcases hlast : (groupMembers cs gname).getLast? with _ | lp
  · rw [hlast] at h
    cases h
  · obtain ⟨last_idx, last_inst⟩ := lp
    rw [hlast] at h
    dsimp only at h
    rcases hexit : cs[advanceExit cs gname cs.length (last_idx + 1)]? with _ | exitInst
    · rw [hexit] at h
      cases h
    · rw [hexit] at h
      rw [List.mem_append] at h
      rcases h with h | h
      · rw [List.mem_map] at h
        obtain ⟨m, _, hm⟩ := h
        rw [← hm]
        exact Or.inl rfl
      · rw [List.mem_singleton] at h
        rw [h]
        exact Or.inr rfl

/-- Every record of the jump loop carries a `Jump` edge. -/
theorem mem_jumpRecords_edge (cs : List Instance) (r : FlowEdgeRecord)
    (h : r ∈ jumpRecords cs) : ∃ c i a, r.edge = .jump c i a := by
  rw [jumpRecords, List.mem_flatMap] at h
  obtain ⟨inst, _, h⟩ := h
  rw [List.mem_filterMap] at h
  obtain ⟨jmp, _, h⟩ := h
  dsimp only at h
  set t : Int := if jmp.absolute_target < (0 : Int) then nameToIdx cs jmp.target
                 else jmp.absolute_target with ht
  by_cases hb : (0 : Int) ≤ t ∧ t < (cs.length : Int)
  · rw [if_pos hb] at h
    rcases hidx : cs[t.toNat]? with _ | target
    · rw [hidx] at h
      cases h
    · rw [hidx] at h
      cases h
      exact ⟨jmp.condition, jmp.iterate, t, rfl⟩
  · rw [if_neg hb] at h
    cases h


theorem enumMembersFrom_append (g : String) (xs ys : List Instance) :
    ∀ i, enumMembersFrom g i (xs ++ ys) =
      enumMembersFrom g i xs ++ enumMembersFrom g (i + xs.length) ys := by
  induction xs with
  | nil => intro i; simp [enumMembersFrom]
  | cons c t ih =>
    intro i
    rw [List.cons_append]
    by_cases hc : c.group = some g
    · rw [enumMembersFrom, if_pos hc, enumMembersFrom, if_pos hc, ih (i + 1)]
      simp only [List.cons_append, List.length_cons]
      rw [show i + 1 + t.length = i + (t.length + 1) by omega]
    · rw [enumMembersFrom, if_neg hc, enumMembersFrom, if_neg hc, ih (i + 1)]
      simp only [List.length_cons]
      rw [show i + 1 + t.length = i + (t.length + 1) by omega]

theorem enumMembersFrom_all_none (g : String) (l : List Instance)
    (h : ∀ c ∈ l, c.group ≠ some g) : ∀ i, enumMembersFrom g i l = [] := by
  induction l with
  | nil => intro i; rfl
  | cons c t ih =>
    intro i
    rw [enumMembersFrom, if_neg (h c (List.mem_cons_self ..))]
    exact ih (fun b hb => h b (List.mem_cons_of_mem _ hb)) (i + 1)

theorem enumMembersFrom_all_map {β : Type} (g : String) (f : Instance → β)
    (l : List Instance) (h : ∀ c ∈ l, c.group = some g) :
    ∀ i, (enumMembersFrom g i l).map (fun m => f m.2) = l.map f := by
  induction l with
  | nil => intro i; rfl
  | cons c t ih =>
    intro i
    rw [enumMembersFrom, if_pos (h c (List.mem_cons_self ..)), List.map_cons, List.map_cons]
    rw [ih (fun b hb => h b (List.mem_cons_of_mem _ hb)) (i + 1)]

theorem enumMembersFrom_all_getLast (g : String) (l : List Instance)
    (h : ∀ c ∈ l, c.group = some g) :
    ∀ i, (enumMembersFrom g i l).getLast? =
      l.getLast?.map (fun a => (i + l.length - 1, a)) := by
  induction l with
  | nil => intro i; rfl
  | cons c t ih =>
    intro i
    rw [enumMembersFrom, if_pos (h c (List.mem_cons_self ..))]
    cases t with
    | nil => rfl
    | cons c2 t2 =>
      have h2 : ∀ b ∈ c2 :: t2, b.group = some g :=
        fun b hb => h b (List.mem_cons_of_mem _ hb)
      rw [show enumMembersFrom g (i + 1) (c2 :: t2) =
            (i + 1, c2) :: enumMembersFrom g (i + 2) t2 by
          rw [enumMembersFrom, if_pos (h2 c2 (List.mem_cons_self ..))],
        List.getLast?_cons_cons, ← show enumMembersFrom g (i + 1) (c2 :: t2) =
            (i + 1, c2) :: enumMembersFrom g (i + 2) t2 by
          rw [enumMembersFrom, if_pos (h2 c2 (List.mem_cons_self ..))]]
      rw [ih h2 (i + 1), List.getLast?_cons_cons]
      cases hcl : (c2 :: t2).getLast? with
      | none => rfl
      | some a =>
        simp only [Option.map_some, List.length_cons]
        rw [show i + 1 + (t2.length + 1) - 1 = i + (t2.length + 1 + 1) - 1 by omega]


theorem mem_firstOccurAux (a : String) :
    ∀ (l seen : List String), a ∈ firstOccurAux seen l ↔ a ∈ l ∧ a ∉ seen := by
  intro l
  induction l with
  | nil => intro seen; simp [firstOccurAux]
  | cons b t ih =>
    intro seen
    rw [firstOccurAux]
    by_cases hb : b ∈ seen
    · rw [if_pos hb, ih seen]
      constructor
      · rintro ⟨h1, h2⟩
        exact ⟨List.mem_cons_of_mem _ h1, h2⟩
      · rintro ⟨h1, h2⟩
        rcases List.mem_cons.mp h1 with rfl | h1
        · exact absurd hb h2
        · exact ⟨h1, h2⟩
    · rw [if_neg hb, List.mem_cons, ih (b :: seen)]
      constructor
      · rintro (rfl | ⟨h1, h2⟩)
        · exact ⟨List.mem_cons_self .., hb⟩
        · refine ⟨List.mem_cons_of_mem _ h1, fun hc => h2 (List.mem_cons_of_mem _ hc)⟩
      · rintro ⟨h1, h2⟩
        by_cases hab : a = b
        · exact Or.inl hab
        · rcases List.mem_cons.mp h1 with rfl | h1
          · exact absurd rfl hab
          · refine Or.inr ⟨h1, fun hc => ?_⟩
            rcases List.mem_cons.mp hc with hx | hc
            · exact hab hx
            · exact h2 hc

theorem nodup_firstOccurAux :
    ∀ (l seen : List String), (firstOccurAux seen l).Nodup := by
  intro l
  induction l with
  | nil => intro seen; simp [firstOccurAux]
  | cons b t ih =>
    intro seen
    rw [firstOccurAux]
    by_cases hb : b ∈ seen
    · rw [if_pos hb]; exact ih seen
    · rw [if_neg hb]
      refine List.Nodup.cons ?_ (ih (b :: seen))
      intro hmem
      exact ((mem_firstOccurAux b t (b :: seen)).mp hmem).2 (List.mem_cons_self ..)

theorem mem_groupKeys (cs : List Instance) (g : String) :
    g ∈ groupKeys cs ↔ ∃ c ∈ cs, c.group = some g := by
  rw [groupKeys, mem_firstOccurAux]
  simp [List.mem_filterMap]

theorem nodup_groupKeys (cs : List Instance) : (groupKeys cs).Nodup :=
  nodup_firstOccurAux _ _

theorem flatMap_filter_nil {α : Type} (keys : List String) (f : String → List α)
    (p : α → Bool) (h : ∀ k ∈ keys, (f k).filter p = []) :
    (keys.flatMap f).filter p = [] := by
  induction keys with
  | nil => rfl
  | cons k t ih =>
    rw [List.flatMap_cons, List.filter_append, h k (List.mem_cons_self ..)]
    rw [ih fun b hb => h b (List.mem_cons_of_mem _ hb)]
    rfl

theorem flatMap_filter_single {α : Type} (keys : List String) (f : String → List α)
    (p : α → Bool) (g : String) (hnd : keys.Nodup) (hin : g ∈ keys)
    (hnil : ∀ k, k ≠ g → (f k).filter p = []) :
    (keys.flatMap f).filter p = (f g).filter p := by
  induction keys with
  | nil => cases hin
  | cons k t ih =>
    rw [List.flatMap_cons, List.filter_append]
    rcases List.mem_cons.mp hin with rfl | hin2
    · rw [flatMap_filter_nil t f p fun b hb => hnil b ?_]
      · rw [List.append_nil]
      · rintro rfl
        exact (List.nodup_cons.mp hnd).1 hb
    · have hk : k ≠ g := by
        rintro rfl
        exact (List.nodup_cons.mp hnd).1 hin2
      rw [hnil k hk, ih (List.nodup_cons.mp hnd).2 hin2]
      rfl


theorem filterMap_congr_fn {α β : Type} (f h : α → Option β) (l : List α)
    (heq : ∀ a ∈ l, f a = h a) : l.filterMap f = l.filterMap h := by
  induction l with
  | nil => rfl
  | cons a t ih =>
    rw [List.filterMap_cons, List.filterMap_cons, heq a (List.mem_cons_self ..)]
    rw [ih fun b hb => heq b (List.mem_cons_of_mem _ hb)]

theorem seq_tryNext_filter (pre run post : List Instance) (g : String)
    (hmemg : ∀ c ∈ run, c.group = some g)
    (hout : ∀ c, c ∈ pre ∨ c ∈ post → c.group ≠ some g)
    (hrun : run ≠ []) :
    (seqRecords (pre ++ run ++ post)).filter (isTryNextG g) =
      (adjPairs run).map (fun p => ⟨p.1.name, p.2.name, .group g .TRY_NEXT⟩) := by
  rw [seqRecords, filter_filterMap_comm]
  rw [filterMap_congr_fn _
    (fun p => if p.1.group = some g ∧ p.2.group = some g
              then some ⟨p.1.name, p.2.name, .group g .TRY_NEXT⟩ else none) _
    (fun p _ => by exact pairEdge_tryNext_char g p.1 p.2)]
  rw [List.append_assoc, adjPairs_append pre (run ++ post), adjPairs_append run post]
  rw [List.filterMap_append, List.filterMap_append, List.filterMap_append,
      List.filterMap_append]
  set F : Instance × Instance → Option FlowEdgeRecord :=
    fun p => if p.1.group = some g ∧ p.2.group = some g
             then some ⟨p.1.name, p.2.name, .group g .TRY_NEXT⟩ else none with hF
  have hP1 : ∀ (zs : List Instance), (∀ c ∈ zs, c.group ≠ some g) →
      (adjPairs zs).filterMap F = [] := by
    intro zs hz
    refine filterMap_all_none _ _ fun p hp => ?_
    rw [hF]
    dsimp only
    rw [if_neg]
    rintro ⟨h1, _⟩
    exact hz p.1 (mem_adjPairs hp).1 h1
  have hBpre : (List.filterMap F
      (match pre.getLast?, (run ++ post).head? with
       | some a, some b => [(a, b)]
       | _, _ => [])) = [] := by
    rcases hgl : pre.getLast? with _ | a
    · rfl
    · rcases run with _ | ⟨r0, rt⟩
      · exact absurd rfl hrun
      · show List.filterMap F [(a, r0)] = []
        rw [List.filterMap_cons, List.filterMap_nil, hF]
        dsimp only
        rw [if_neg]
        rintro ⟨h1, _⟩
        exact hout a (Or.inl (mem_of_getLast_eq_some hgl)) h1
  have hBpost : (List.filterMap F
      (match run.getLast?, post.head? with
       | some a, some b => [(a, b)]
       | _, _ => [])) = [] := by
    rcases hgl : run.getLast? with _ | a
    · rfl
    · rcases post with _ | ⟨e, rest⟩
      · rfl
      · show List.filterMap F [(a, e)] = []
        rw [List.filterMap_cons, List.filterMap_nil, hF]
        dsimp only
        rw [if_neg]
        rintro ⟨_, h2⟩
        exact hout e (Or.inr (List.mem_cons_self ..)) h2
  have hMid : (adjPairs run).filterMap F =
      (adjPairs run).map
        (fun p => (⟨p.1.name, p.2.name, .group g .TRY_NEXT⟩ : FlowEdgeRecord)) := by
    refine filterMap_all_some _ _ _ fun p hp => ?_
    rw [hF]
    dsimp only
    rw [if_pos ⟨hmemg p.1 (mem_adjPairs hp).1, hmemg p.2 (mem_adjPairs hp).2⟩]
  rw [hP1 pre fun c hc => hout c (Or.inl hc), hP1 post fun c hc => hout c (Or.inr hc),
      hBpre, hBpost, hMid]
  simp


theorem advanceExit_stop (cs : List Instance) (g : String) (fuel i : Nat)
    (h : ∀ c, cs[i]? = some c → c.group ≠ some g) :
    advanceExit cs g fuel i = i := by
  cases fuel with
  | zero => rfl
  | succ m =>
    rcases hcs : cs[i]? with _ | c
    · rw [advanceExit, hcs]
    · rw [advanceExit, hcs]
      dsimp only
      rw [if_neg (h c hcs)]

theorem getElem_middle_eq_head (pre run post : List Instance) :
    (pre ++ run ++ post)[pre.length + run.length]? = post.head? := by
  have hlen : (pre ++ run).length = pre.length + run.length := List.length_append ..
  rw [List.getElem?_append_right (hlen ▸ le_rfl), hlen, Nat.sub_self]
  cases post <;> simp

theorem groupExit_compute (pre run post : List Instance) (g : String)
    (hmemg : ∀ c ∈ run, c.group = some g)
    (hout : ∀ c, c ∈ pre ∨ c ∈ post → c.group ≠ some g)
    (hrun : run ≠ []) :
    groupExitRecords (pre ++ run ++ post) g =
      (match post.head? with
       | none => []
       | some e =>
         run.map (fun m =>
           (⟨m.name, e.name, .group g .SCATTER_EXIT⟩ : FlowEdgeRecord)) ++
           [⟨(run.getLast hrun).name, e.name, .group g .PASS_THROUGH⟩]) := by
  have hmembers : groupMembers (pre ++ run ++ post) g =
      enumMembersFrom g pre.length run := by
    rw [groupMembers, List.append_assoc, enumMembersFrom_append,
        enumMembersFrom_append,
        enumMembersFrom_all_none g pre (fun c hc => hout c (Or.inl hc)),
        enumMembersFrom_all_none g post (fun c hc => hout c (Or.inr hc))]
    simp
  have hgl : run.getLast? = some (run.getLast hrun) := List.getLast?_eq_getLast run hrun
  have hlast : (groupMembers (pre ++ run ++ post) g).getLast? =
      some (pre.length + run.length - 1, run.getLast hrun) := by
    rw [hmembers, enumMembersFrom_all_getLast g run hmemg pre.length, hgl]
    rfl
  have hidx1 : pre.length + run.length - 1 + 1 = pre.length + run.length := by
    rcases run with _ | ⟨r0, rt⟩
    · exact absurd rfl hrun
    · simp only [List.length_cons]
      omega
  have hmid := getElem_middle_eq_head pre run post
  have hadv : advanceExit (pre ++ run ++ post) g (pre ++ run ++ post).length
      (pre.length + run.length - 1 + 1) = pre.length + run.length := by
    rw [hidx1]
    refine advanceExit_stop _ _ _ _ fun c hc => ?_
    rw [hmid] at hc
    rcases post with _ | ⟨e, rest⟩
    · cases hc
    · cases hc
      exact hout c (Or.inr (List.mem_cons_self ..))
  rw [groupExitRecords, hlast]
  dsimp only
  rw [hadv, hmid]
  rcases post with _ | ⟨e, rest⟩
  · rfl
  · simp only [List.head?_cons]
    rw [hmembers,
        enumMembersFrom_all_map g
          (fun c => (⟨c.name, e.name, .group g .SCATTER_EXIT⟩ : FlowEdgeRecord))
          run hmemg pre.length]


/-- C1: for a component list `pre ++ run ++ post` whose maximal run `run`
is exactly the set of components carrying the non-empty group name `g`
(and component names are unique, as `Instr.add_component` enforces), the
flow-edge construction emits exactly one `Group(TRY_NEXT)` edge per
adjacent pair of co-members, a `Group(SCATTER_EXIT)` edge from every
member to the first component after the group, exactly one
`Group(PASS_THROUGH)` edge from the last member to that same exit
component, no `Sequential` edge out of any group member, and no exit
edges at all when the group's last member ends the instrument. -/
theorem C1_group_flow_edges
    (pre run post : List Instance) (g : String)
    (hg : g ≠ "")
    (hrun : run ≠ [])
    (hmemg : ∀ c ∈ run, c.group = some g)
    (hout : ∀ c, c ∈ pre ∨ c ∈ post → c.group ≠ some g)
    (hnames : ((pre ++ run ++ post).map Instance.name).Nodup) :
    ((buildFlowEdgeRecords (pre ++ run ++ post)).filter (isTryNextG g) =
      (adjPairs run).map (fun p =>
        (⟨p.1.name, p.2.name, .group g .TRY_NEXT⟩ : FlowEdgeRecord))) ∧
    (∀ r ∈ buildFlowEdgeRecords (pre ++ run ++ post), isSequentialEdge r = true →
      r.src ∉ run.map Instance.name) ∧
    ((buildFlowEdgeRecords (pre ++ run ++ post)).filter (isScatterExitG g) =
      (match post.head? with
       | none => []
       | some e =>
         run.map (fun m =>
           (⟨m.name, e.name, .group g .SCATTER_EXIT⟩ : FlowEdgeRecord)))) ∧
    ((buildFlowEdgeRecords (pre ++ run ++ post)).filter (isPassThroughG g) =
      (match post.head? with
       | none => []
       | some e =>
         [(⟨(run.getLast hrun).name, e.name, .group g .PASS_THROUGH⟩ : FlowEdgeRecord)])) := by
  have hcsne : ¬((pre ++ run ++ post).isEmpty = true) := by
    rcases run with _ | ⟨r0, rt⟩
    · exact absurd rfl hrun
    · rcases pre with _ | ⟨p0, pt⟩ <;> simp
  have hbuild : buildFlowEdgeRecords (pre ++ run ++ post) =
      seqRecords (pre ++ run ++ post) ++
        (groupKeys (pre ++ run ++ post)).flatMap
          (groupExitRecords (pre ++ run ++ post)) ++
        jumpRecords (pre ++ run ++ post) := by
    rw [buildFlowEdgeRecords, if_neg hcsne]
  have hjumpNil : ∀ p : FlowEdgeRecord → Bool,
      (∀ src dst c i a, p ⟨src, dst, .jump c i a⟩ = false) →
      (jumpRecords (pre ++ run ++ post)).filter p = [] := by
    intro p hp
    refine List.filter_eq_nil_iff.mpr fun r hr => ?_
    obtain ⟨c, i, a, he⟩ := mem_jumpRecords_edge _ r hr
    obtain ⟨s, d, e⟩ := r
    dsimp only at he
    rw [he]
    simp [hp]
  refine ⟨?_, ?_, ?_, ?_⟩
  · -- TryNext filter
    rw [hbuild, List.filter_append, List.filter_append,
        seq_tryNext_filter pre run post g hmemg hout hrun]
    have hg1 : ((groupKeys (pre ++ run ++ post)).flatMap
        (groupExitRecords (pre ++ run ++ post))).filter (isTryNextG g) = [] := by
      refine flatMap_filter_nil _ _ _ fun k hk => ?_
      refine List.filter_eq_nil_iff.mpr fun r hr => ?_
      rcases mem_groupExitRecords_edge _ k r hr with he | he <;>
        simp [isTryNextG, he]
    have hj1 : (jumpRecords (pre ++ run ++ post)).filter (isTryNextG g) = [] := by
      refine hjumpNil _ fun src dst c i a => ?_
      rfl
    rw [hg1, hj1, List.append_nil, List.append_nil]
  · -- no Sequential edge out of a group member
    intro r hr hseq hmemname
    rw [hbuild] at hr
    rcases List.mem_append.mp hr with hr2 | hrj
    · rcases List.mem_append.mp hr2 with hrs | hrg
      · rw [seqRecords, List.mem_filterMap] at hrs
        obtain ⟨p, hp, hpe⟩ := hrs
        obtain ⟨hsrc, hcase⟩ := pairEdge_sequential_src p.1 p.2 r hpe hseq
        rw [List.mem_map] at hmemname
        obtain ⟨m, hm, hmn⟩ := hmemname
        have hp1cs : p.1 ∈ pre ++ run ++ post := (mem_adjPairs hp).1
        have hmcs : m ∈ pre ++ run ++ post :=
          List.mem_append.mpr (Or.inl (List.mem_append.mpr (Or.inr hm)))
        have heqn : m.name = p.1.name := by rw [hmn, hsrc]
        have hmp : m = p.1 :=
          List.inj_on_of_nodup_map hnames hmcs hp1cs heqn
        have hpg : p.1.group = some g := by rw [← hmp]; exact hmemg m hm
        rcases hcase with hnone | ⟨hsome, hne⟩
        · rw [hpg] at hnone
          cases hnone
        · rw [hpg] at hsome hne
          rcases hd : p.2.group with _ | x
        
          · rw [hd] at hsome
            simp only [Option.getD_none, Option.some.injEq] at hsome
            exact hg hsome
          · rw [hd] at hsome hne
            simp only [Option.getD_some, Option.some.injEq] at hsome
            exact hne (by rw [hsome])
      · rw [List.mem_flatMap] at hrg
        obtain ⟨k, _, hrk⟩ := hrg
        rcases mem_groupExitRecords_edge _ k r hrk with he | he <;>
          · obtain ⟨s, d, e⟩ := r
            dsimp only at he
            rw [he] at hseq
            simp [isSequentialEdge] at hseq
    · obtain ⟨c, i, a, he⟩ := mem_jumpRecords_edge _ r hrj
      obtain ⟨s, d, e⟩ := r
      dsimp only at he
      rw [he] at hseq
      simp [isSequentialEdge] at hseq
  · -- ScatterExit filter
    rw [hbuild, List.filter_append, List.filter_append]
    have hs1 : (seqRecords (pre ++ run ++ post)).filter (isScatterExitG g) = [] := by
      refine List.filter_eq_nil_iff.mpr fun r hr => ?_
      rcases mem_seqRecords_edge _ r hr with ⟨w, he⟩ | ⟨gn, he⟩ <;>
        simp [isScatterExitG, he]
    have hj1 : (jumpRecords (pre ++ run ++ post)).filter (isScatterExitG g) = [] := by
      refine hjumpNil _ fun src dst c i a => ?_
      rfl
    have hgrp : ((groupKeys (pre ++ run ++ post)).flatMap
        (groupExitRecords (pre ++ run ++ post))).filter (isScatterExitG g) =
        (groupExitRecords (pre ++ run ++ post) g).filter (isScatterExitG g) := by
      refine flatMap_filter_single _ _ _ g (nodup_groupKeys _) ?_ ?_
      · rw [mem_groupKeys]
        rcases run with _ | ⟨r0, rt⟩
        · exact absurd rfl hrun
        · exact ⟨r0, List.mem_append.mpr (Or.inl (List.mem_append.mpr
            (Or.inr (List.mem_cons_self ..)))), hmemg r0 (List.mem_cons_self ..)⟩
      · intro k hk
        refine List.filter_eq_nil_iff.mpr fun r hr => ?_
        rcases mem_groupExitRecords_edge _ k r hr with he | he <;>
          simp [isScatterExitG, he, hk]
    rw [hs1, hj1, hgrp, List.append_nil, List.nil_append]
    rw [groupExit_compute pre run post g hmemg hout hrun]
    rcases post with _ | ⟨e, rest⟩
    · rfl
    · simp only [List.head?_cons]
      rw [List.filter_append]
      have h1 : (run.map (fun m =>
          (⟨m.name, e.name, .group g .SCATTER_EXIT⟩ : FlowEdgeRecord))).filter
            (isScatterExitG g) =
          run.map (fun m =>
            (⟨m.name, e.name, .group g .SCATTER_EXIT⟩ : FlowEdgeRecord)) := by
        refine List.filter_eq_self.mpr fun r hr => ?_
        rw [List.mem_map] at hr
        obtain ⟨m, _, rfl⟩ := hr
        simp [isScatterExitG]
      have h2 : ([(⟨(run.getLast hrun).name, e.name, .group g .PASS_THROUGH⟩ :
          FlowEdgeRecord)]).filter (isScatterExitG g) = [] := by
        simp [isScatterExitG]
      rw [h1, h2, List.append_nil]
  · -- PassThrough filter
    rw [hbuild, List.filter_append, List.filter_append]
    have hs1 : (seqRecords (pre ++ run ++ post)).filter (isPassThroughG g) = [] := by
      refine List.filter_eq_nil_iff.mpr fun r hr => ?_
      rcases mem_seqRecords_edge _ r hr with ⟨w, he⟩ | ⟨gn, he⟩ <;>
        simp [isPassThroughG, he]
    have hj1 : (jumpRecords (pre ++ run ++ post)).filter (isPassThroughG g) = [] := by
      refine hjumpNil _ fun src dst c i a => ?_
      rfl
    have hgrp : ((groupKeys (pre ++ run ++ post)).flatMap
        (groupExitRecords (pre ++ run ++ post))).filter (isPassThroughG g) =
        (groupExitRecords (pre ++ run ++ post) g).filter (isPassThroughG g) := by
      refine flatMap_filter_single _ _ _ g (nodup_groupKeys _) ?_ ?_
      · rw [mem_groupKeys]
        rcases run with _ | ⟨r0, rt⟩
        · exact absurd rfl hrun
        · exact ⟨r0, List.mem_append.mpr (Or.inl (List.mem_append.mpr
            (Or.inr (List.mem_cons_self ..)))), hmemg r0 (List.mem_cons_self ..)⟩
      · intro k hk
        refine List.filter_eq_nil_iff.mpr fun r hr => ?_
        rcases mem_groupExitRecords_edge _ k r hr with he | he <;>
          simp [isPassThroughG, he, hk]
    rw [hs1, hj1, hgrp, List.append_nil, List.nil_append]
    rw [groupExit_compute pre run post g hmemg hout hrun]
    rcases post with _ | ⟨e, rest⟩
    · rfl
    · simp only [List.head?_cons]
      rw [List.filter_append]
      have h1 : (run.map (fun m =>
          (⟨m.name, e.name, .group g .SCATTER_EXIT⟩ : FlowEdgeRecord))).filter
            (isPassThroughG g) = [] := by
        refine List.filter_eq_nil_iff.mpr fun r hr => ?_
        rw [List.mem_map] at hr
        obtain ⟨m, _, rfl⟩ := hr
        simp [isPassThroughG]
      have h2 : ([(⟨(run.getLast hrun).name, e.name, .group g .PASS_THROUGH⟩ :
          FlowEdgeRecord)]).filter (isPassThroughG g) =
          [(⟨(run.getLast hrun).name, e.name, .group g .PASS_THROUGH⟩ :
            FlowEdgeRecord)] := by
        simp [isPassThroughG]
      rw [h1, h2, List.nil_append]

/-- C1 witness: the theorem applied to the spec scenario
`before, g1 ∈ G, g2 ∈ G, g3 ∈ G, after`. -/
theorem C1_group_flow_edges_witness :
    (buildFlowEdgeRecords
        [⟨"before", none, none, []⟩, ⟨"g1", some "G", none, []⟩,
         ⟨"g2", some "G", none, []⟩, ⟨"g3", some "G", none, []⟩,
         ⟨"after", none, none, []⟩]).filter (isTryNextG "G") =
      [⟨"g1", "g2", .group "G" .TRY_NEXT⟩, ⟨"g2", "g3", .group "G" .TRY_NEXT⟩] ∧
    (buildFlowEdgeRecords
        [⟨"before", none, none, []⟩, ⟨"g1", some "G", none, []⟩,
         ⟨"g2", some "G", none, []⟩, ⟨"g3", some "G", none, []⟩,
         ⟨"after", none, none, []⟩]).filter (isScatterExitG "G") =
      [⟨"g1", "after", .group "G" .SCATTER_EXIT⟩,
       ⟨"g2", "after", .group "G" .SCATTER_EXIT⟩,
       ⟨"g3", "after", .group "G" .SCATTER_EXIT⟩] ∧
    (buildFlowEdgeRecords
        [⟨"before", none, none, []⟩, ⟨"g1", some "G", none, []⟩,
         ⟨"g2", some "G", none, []⟩, ⟨"g3", some "G", none, []⟩,
         ⟨"after", none, none, []⟩]).filter (isPassThroughG "G") =
      [⟨"g3", "after", .group "G" .PASS_THROUGH⟩] := by
  obtain ⟨h1, _, h3, h4⟩ := C1_group_flow_edges
    [⟨"before", none, none, []⟩]
    [⟨"g1", some "G", none, []⟩, ⟨"g2", some "G", none, []⟩,
     ⟨"g3", some "G", none, []⟩]
    [⟨"after", none, none, []⟩] "G"
    (by decide) (by decide) (by decide)
    (by
      intro c hc
      rcases hc with hc | hc <;>
        · rw [List.mem_singleton] at hc
          subst hc
          decide)
    (by decide)
  refine ⟨?_, ?_, ?_⟩
  · rw [show ([⟨"before", none, none, []⟩, ⟨"g1", some "G", none, []⟩,
        ⟨"g2", some "G", none, []⟩, ⟨"g3", some "G", none, []⟩,
        ⟨"after", none, none, []⟩] : List Instance) =
      [⟨"before", none, none, []⟩] ++
        [⟨"g1", some "G", none, []⟩, ⟨"g2", some "G", none, []⟩,
         ⟨"g3", some "G", none, []⟩] ++ [⟨"after", none, none, []⟩] from rfl, h1]
    rfl
  · rw [show ([⟨"before", none, none, []⟩, ⟨"g1", some "G", none, []⟩,
        ⟨"g2", some "G", none, []⟩, ⟨"g3", some "G", none, []⟩,
        ⟨"after", none, none, []⟩] : List Instance) =
      [⟨"before", none, none, []⟩] ++
        [⟨"g1", some "G", none, []⟩, ⟨"g2", some "G", none, []⟩,
         ⟨"g3", some "G", none, []⟩] ++ [⟨"after", none, none, []⟩] from rfl, h3]
    rfl
  · rw [show ([⟨"before", none, none, []⟩, ⟨"g1", some "G", none, []⟩,
        ⟨"g2", some "G", none, []⟩, ⟨"g3", some "G", none, []⟩,
        ⟨"after", none, none, []⟩] : List Instance) =
      [⟨"before", none, none, []⟩] ++
        [⟨"g1", some "G", none, []⟩, ⟨"g2", some "G", none, []⟩,
         ⟨"g3", some "G", none, []⟩] ++ [⟨"after", none, none, []⟩] from rfl, h4]
    rfl

end McCodeAntlr
